import Mathlib

/-!
Verification of the tile-pyramid generation pipeline of `isyntax2raw`
(`src/isyntax2raw/__init__.py`), as a shallow embedding in Lean 4.

The embedding models, faithfully to the Python source:
  * `create_patch_list` (lines 371-393): the per-level patch grid;
  * `make_planar` (lines 244-250): RGB deinterleaving via strided slices;
  * `write_tile` (lines 266-299): the per-tile try/except write;
  * `create_tile_directory` (lines 215-233) and `get_tile_filename`
    (lines 235-242): on-disk layout;
  * `write_pyramid` (lines 252-361): the per-level orchestration, modelled
    both as an action list (for layout claims) and as a small-step event
    machine (for the ordering/barrier claims);
  * `MaxQueuePool` (lines 27-65): the bounded-semaphore admission gate,
    modelled as a transition system;
  * `WriteTiles.__init__` (lines 70-90): constructor action ordering.

Machine integers do not overflow here (Python ints are unbounded), so all
coordinates are `Nat`.  The source computes `resolution_x_end` with
`math.ceil` of a float division; it is modelled as exact ceiling division
`cdiv`, which agrees with the float computation on the integer inputs the
engine supplies.
-/

/-- Ceiling division on naturals: `cdiv a b = ⌈a / b⌉` for `b > 0`.
Models Python's `math.ceil(a / b)` on non-negative integers. -/
def cdiv (a b : Nat) : Nat := (a + b - 1) / b

/-- `get_size` (source line 183-185): pixel extent of a dimension range
`(origin, step, end)` is `(end - origin) / step`; the callers in
`write_pyramid` take `math.ceil` of it, giving `cdiv (e - origin) step`. -/
def resolution_end (origin step e : Nat) : Nat := cdiv (e - origin) step

/-- A patch `[x_start, x_end, y_start, y_end, level]` as built by
`create_patch_list` (source line 386). -/
structure Patch where
  xStart : Nat
  xEnd : Nat
  yStart : Nat
  yEnd : Nat
  level : Nat
deriving Repr, DecidableEq

/-- The row-major double loop of `create_patch_list` (source lines 380-392):
`y` ranges over `[0, tilesY)` in the outer loop, `x` over `[0, tilesX)` in
the inner loop, and cell `(x, y)` contributes `f x y`. -/
def gridTable (tilesX tilesY : Nat) (f : Nat → Nat → α) : List α :=
  ((List.range tilesY).map (fun y => (List.range tilesX).map (fun x => f x y))).flatten

/-- The patch built for grid cell `(x, y)` (source lines 381-386), with
`tsX = tile_size[0] * scale` and `tsY = tile_size[1] * scale` the scaled
tile extents (source lines 378-379). -/
def patchFor (image_x_end image_y_end tsX tsY originX originY level scale x y : Nat) :
    Patch :=
  { xStart := originX + x * tsX
    xEnd := min (originX + x * tsX + tsX - scale) image_x_end
    yStart := originY + y * tsY
    yEnd := min (originY + y * tsY + tsY - scale) image_y_end
    level := level }

/-- `WriteTiles.create_patch_list` (source lines 371-393).  Returns the
parallel lists `patches, patch_identifier`: the patch for each grid cell
and its `(x, y)` grid identifier, in row-major order (`y` outer loop, `x`
inner loop).  `scale = 2 ** level`; the source multiplies `tile_size` by
`scale` in place before the loops. -/
def create_patch_list (image_x_end image_y_end : Nat) (tilesX tilesY : Nat)
    (tile_size_x tile_size_y : Nat) (originX originY : Nat) (level : Nat) :
    List Patch × List (Nat × Nat) :=
  (gridTable tilesX tilesY
      (fun x y => patchFor image_x_end image_y_end (tile_size_x * 2 ^ level)
        (tile_size_y * 2 ^ level) originX originY level (2 ^ level) x y),
   gridTable tilesX tilesY (fun x y => (x, y)))

/-- Membership of a level-0 coordinate pair in the (inclusive) rectangle of
a patch. -/
def inPatchRect (p : Patch) (cx cy : Nat) : Prop :=
  p.xStart ≤ cx ∧ cx ≤ p.xEnd ∧ p.yStart ≤ cy ∧ cy ≤ p.yEnd

instance (p : Patch) (cx cy : Nat) : Decidable (inPatchRect p cx cy) := by
  unfold inPatchRect; infer_instance

/-- A level-space pixel index pair `(px, py)` falls inside a patch when its
level-0 coordinate `(originX + px * scale, originY + py * scale)` does. -/
def inPatchIdx (p : Patch) (scale originX originY px py : Nat) : Prop :=
  inPatchRect p (originX + px * scale) (originY + py * scale)

instance (p : Patch) (s ox oy px py : Nat) : Decidable (inPatchIdx p s ox oy px py) := by
  unfold inPatchIdx; infer_instance

/-! ### Grid-table lemmas -/

theorem gridTable_succ (m n : Nat) (f : Nat → Nat → α) :
    gridTable m (n + 1) f = gridTable m n f ++ (List.range m).map (fun x => f x n) := by
  unfold gridTable
  rw [List.range_succ, List.map_append, List.flatten_append]
  simp

theorem gridTable_length (m n : Nat) (f : Nat → Nat → α) :
    (gridTable m n f).length = n * m := by
  induction n with
  | zero => simp [gridTable]
  | succ k ih =>
    rw [gridTable_succ, List.length_append, ih, List.length_map, List.length_range]
    ring

theorem gridTable_getElem? (m : Nat) (f : Nat → Nat → α) :
    ∀ n y x, y < n → x < m → (gridTable m n f)[y * m + x]? = some (f x y) := by
  intro n
  induction n with
  | zero => intro y x hy; omega
  | succ k ih =>
    intro y x hy hx
    rw [gridTable_succ]
    by_cases hyk : y < k
    · rw [List.getElem?_append_left, ih y x hyk hx]
      rw [gridTable_length]
      calc y * m + x < y * m + m := by omega
        _ = (y + 1) * m := by ring
        _ ≤ k * m := Nat.mul_le_mul_right m hyk
    · have hyk' : y = k := by omega
      subst hyk'
      rw [List.getElem?_append_right (by rw [gridTable_length]; omega)]
      rw [gridTable_length, Nat.add_sub_cancel_left]
      simp [List.getElem?_range, hx]

theorem gridTable_get (m n : Nat) (f : Nat → Nat → α)
    (i : Fin (gridTable m n f).length) :
    (gridTable m n f).get i = f (i.val % m) (i.val / m) := by
  have hm : 0 < m := by
    rcases Nat.eq_zero_or_pos m with h0 | h; · exact absurd i.isLt (by simp [gridTable_length, h0])
    exact h
  have hlen : (gridTable m n f).length = n * m := gridTable_length m n f
  have hi : i.val / m * m + i.val % m = i.val := Nat.div_add_mod' i.val m
  have hdiv : i.val / m < n := by
    have hlt : i.val < n * m := by rw [← hlen]; exact i.isLt
    exact Nat.div_lt_of_lt_mul (by rwa [Nat.mul_comm] at hlt)
  have hmod : i.val % m < m := Nat.mod_lt _ hm
  have h1 : (gridTable m n f)[i.val]? = some (f (i.val % m) (i.val / m)) := by
    conv_lhs => rw [← hi]
    exact gridTable_getElem? m f n _ _ hdiv hmod
  have h2 : (gridTable m n f)[i.val]? = some ((gridTable m n f).get i) :=
    List.getElem?_eq_getElem i.isLt
  exact Option.some.inj (h2.symm.trans h1)

/-! ### Ceiling-division lemmas -/

theorem le_cdiv_mul (a b : Nat) (hb : 0 < b) : a ≤ cdiv a b * b := by
  unfold cdiv
  rw [Nat.mul_comm]
  have h1 := Nat.div_add_mod (a + b - 1) b
  have h2 : (a + b - 1) % b < b := Nat.mod_lt _ hb
  omega

theorem mul_le_of_lt_cdiv (a b x : Nat) (hb : 0 < b) (h : x < cdiv a b) : x * b ≤ a := by
  unfold cdiv at h
  have h1 : (a + b - 1) / b * b ≤ a + b - 1 := Nat.div_mul_le_self _ _
  have h2 : (x + 1) * b ≤ (a + b - 1) / b * b := Nat.mul_le_mul_right b h
  have h3 : (x + 1) * b = x * b + b := by ring
  omega

/-! ### Distinctness of the patch identifiers -/

theorem gridTable_pair_nodup (m n : Nat) :
    (gridTable m n (fun x y => (x, y))).Nodup := by
  rw [List.nodup_iff_injective_get]
  intro i j h
  rw [gridTable_get, gridTable_get] at h
  have h1 : i.val % m = j.val % m := congrArg Prod.fst h
  have h2 : i.val / m = j.val / m := congrArg Prod.snd h
  apply Fin.ext
  have hi := Nat.div_add_mod i.val m
  have hj := Nat.div_add_mod j.val m
  rw [h1, h2] at hi
  omega

/-! ### Geometry of the patch grid -/

theorem gridAxis_disjoint (o T s a a' c : Nat) (hs : 0 < s) (hsT : s ≤ T) (ha : a ≠ a')
    (h1 : o + a * T ≤ c) (h2 : c ≤ o + a * T + T - s)
    (h3 : o + a' * T ≤ c) (h4 : c ≤ o + a' * T + T - s) : False := by
  rcases Nat.lt_or_ge a a' with h | h
  · have hm : (a + 1) * T ≤ a' * T := Nat.mul_le_mul_right T h
    have e : (a + 1) * T = a * T + T := by ring
    omega
  · have h' : a' < a := by omega
    have hm : (a' + 1) * T ≤ a * T := Nat.mul_le_mul_right T h'
    have e : (a' + 1) * T = a' * T + T := by ring
    omega

theorem patchFor_disjoint (iX iY tsX tsY oX oY level s : Nat) (hs : 0 < s)
    (hsX : s ≤ tsX) (hsY : s ≤ tsY)
    (x y x' y' cx cy : Nat) (hne : (x, y) ≠ (x', y'))
    (hp : inPatchRect (patchFor iX iY tsX tsY oX oY level s x y) cx cy)
    (hq : inPatchRect (patchFor iX iY tsX tsY oX oY level s x' y') cx cy) : False := by
  obtain ⟨p1, p2, p3, p4⟩ := hp
  obtain ⟨q1, q2, q3, q4⟩ := hq
  simp only [patchFor] at p1 p2 p3 p4 q1 q2 q3 q4
  by_cases hxx : x = x'
  · have hyy : y ≠ y' := by
      intro hc; exact hne (by rw [hxx, hc])
    exact gridAxis_disjoint oY tsY s y y' cy hs hsY hyy p3
      (le_trans p4 (min_le_left _ _)) q3 (le_trans q4 (min_le_left _ _))
  · exact gridAxis_disjoint oX tsX s x x' cx hs hsX hxx p1
      (le_trans p2 (min_le_left _ _)) q1 (le_trans q2 (min_le_left _ _))

theorem axis_cover (o e T s p : Nat) (hs : 0 < s) (hT : 0 < T)
    (hoe : o ≤ e) (hp : p < cdiv (e - o) s) :
    o + p / T * (T * s) ≤ o + p * s ∧
      o + p * s ≤ min (o + p / T * (T * s) + T * s - s) e := by
  have hlow : p / T * T ≤ p := Nat.div_mul_le_self p T
  have hlow' : p / T * T * s ≤ p * s := Nat.mul_le_mul_right s hlow
  have ha : p / T * (T * s) = p / T * T * s := by ring
  refine ⟨by omega, Nat.le_min.mpr ⟨?_, ?_⟩⟩
  · have hup : p < (p / T + 1) * T := by
      have := Nat.div_add_mod p T
      have hm : p % T < T := Nat.mod_lt _ hT
      have e1 : (p / T + 1) * T = T * (p / T) + T := by ring
      omega
    have hup' : (p + 1) * s ≤ (p / T + 1) * T * s := Nat.mul_le_mul_right s hup
    have e2 : (p + 1) * s = p * s + s := by ring
    have e3 : (p / T + 1) * T * s = p / T * (T * s) + T * s := by ring
    omega
  · have := mul_le_of_lt_cdiv (e - o) s p hs hp
    omega

theorem patchFor_covers (iX iY tileW tileH oX oY level s px py : Nat)
    (hs : 0 < s) (hW : 0 < tileW) (hH : 0 < tileH)
    (hOX : oX ≤ iX) (hOY : oY ≤ iY)
    (hpx : px < cdiv (iX - oX) s) (hpy : py < cdiv (iY - oY) s) :
    inPatchIdx
      (patchFor iX iY (tileW * s) (tileH * s) oX oY level s (px / tileW) (py / tileH))
      s oX oY px py := by
  obtain ⟨hx1, hx2⟩ := axis_cover oX iX tileW s px hs hW hOX hpx
  obtain ⟨hy1, hy2⟩ := axis_cover oY iY tileH s py hs hH hOY hpy
  exact ⟨hx1, hx2, hy1, hy2⟩

/-- C1: for every resolution level, `create_patch_list` returns exactly
`xTiles * yTiles` patches and identifiers (with
`xTiles = ⌈resolutionXEnd / tileWidth⌉`,
`resolutionXEnd = ⌈(end - origin) / step⌉` and `step = 2 ^ level`); the
identifiers `(gridX, gridY)` are pairwise distinct; the patches are
pairwise disjoint rectangles in level-0 coordinates; and their union
covers every level pixel index of `[0, resolutionXEnd) × [0, resolutionYEnd)`. -/
theorem claim_C1
    (imageXEnd imageYEnd tileW tileH originX originY level rX rY tilesX tilesY : Nat)
    (hW : 0 < tileW) (hH : 0 < tileH)
    (hOX : originX ≤ imageXEnd) (hOY : originY ≤ imageYEnd)
    (hrX : rX = cdiv (imageXEnd - originX) (2 ^ level))
    (hrY : rY = cdiv (imageYEnd - originY) (2 ^ level))
    (htX : tilesX = cdiv rX tileW) (htY : tilesY = cdiv rY tileH) :
    (create_patch_list imageXEnd imageYEnd tilesX tilesY tileW tileH originX originY
        level).1.length = tilesX * tilesY ∧
    (create_patch_list imageXEnd imageYEnd tilesX tilesY tileW tileH originX originY
        level).2.length = tilesX * tilesY ∧
    (create_patch_list imageXEnd imageYEnd tilesX tilesY tileW tileH originX originY
        level).2.Nodup ∧
    (∀ i j : Fin (create_patch_list imageXEnd imageYEnd tilesX tilesY tileW tileH
        originX originY level).1.length, i ≠ j → ∀ cx cy : Nat,
      ¬(inPatchRect ((create_patch_list imageXEnd imageYEnd tilesX tilesY tileW tileH
            originX originY level).1.get i) cx cy ∧
        inPatchRect ((create_patch_list imageXEnd imageYEnd tilesX tilesY tileW tileH
            originX originY level).1.get j) cx cy)) ∧
    (∀ px py : Nat, px < rX → py < rY →
      ∃ i : Fin (create_patch_list imageXEnd imageYEnd tilesX tilesY tileW tileH
          originX originY level).1.length,
        inPatchIdx ((create_patch_list imageXEnd imageYEnd tilesX tilesY tileW tileH
            originX originY level).1.get i) (2 ^ level) originX originY px py) := by
  subst hrX hrY htX htY
  have hs : 0 < 2 ^ level := Nat.two_pow_pos level
  simp only [create_patch_list]
  refine ⟨?_, ?_, ?_, ?_, ?_⟩
  · rw [gridTable_length]; ring
  · rw [gridTable_length]; ring
  · exact gridTable_pair_nodup _ _
  · intro i j hne cx cy hcon
    obtain ⟨hp, hq⟩ := hcon
    rw [gridTable_get] at hp hq
    refine patchFor_disjoint imageXEnd imageYEnd (tileW * 2 ^ level) (tileH * 2 ^ level)
      originX originY level (2 ^ level) hs (Nat.le_mul_of_pos_left _ hW)
      (Nat.le_mul_of_pos_left _ hH) _ _ _ _ cx cy ?_ hp hq
    intro hc
    apply hne
    apply Fin.ext
    have h1 := congrArg Prod.fst hc
    have h2 := congrArg Prod.snd hc
    simp only at h1 h2
    have hi := Nat.div_add_mod i.val (cdiv (cdiv (imageXEnd - originX) (2 ^ level)) tileW)
    have hj := Nat.div_add_mod j.val (cdiv (cdiv (imageXEnd - originX) (2 ^ level)) tileW)
    rw [h1, h2] at hi
    omega
  · intro px py hpx hpy
    have hgx : px / tileW < cdiv (cdiv (imageXEnd - originX) (2 ^ level)) tileW := by
      rw [Nat.div_lt_iff_lt_mul hW]
      exact lt_of_lt_of_le hpx (le_cdiv_mul _ tileW hW)
    have hgy : py / tileH < cdiv (cdiv (imageYEnd - originY) (2 ^ level)) tileH := by
      rw [Nat.div_lt_iff_lt_mul hH]
      exact lt_of_lt_of_le hpy (le_cdiv_mul _ tileH hH)
    have htX0 : 0 < cdiv (cdiv (imageXEnd - originX) (2 ^ level)) tileW :=
      Nat.lt_of_le_of_lt (Nat.zero_le _) hgx
    refine ⟨⟨py / tileH * cdiv (cdiv (imageXEnd - originX) (2 ^ level)) tileW + px / tileW, ?_⟩, ?_⟩
    · rw [gridTable_length]
      have hm : (py / tileH + 1) * cdiv (cdiv (imageXEnd - originX) (2 ^ level)) tileW ≤
          cdiv (cdiv (imageYEnd - originY) (2 ^ level)) tileH *
            cdiv (cdiv (imageXEnd - originX) (2 ^ level)) tileW :=
        Nat.mul_le_mul_right (cdiv (cdiv (imageXEnd - originX) (2 ^ level)) tileW) hgy
      have e : (py / tileH + 1) * cdiv (cdiv (imageXEnd - originX) (2 ^ level)) tileW =
          py / tileH * cdiv (cdiv (imageXEnd - originX) (2 ^ level)) tileW +
            cdiv (cdiv (imageXEnd - originX) (2 ^ level)) tileW := by ring
      omega
    · rw [gridTable_get]
      have hmod : (py / tileH * cdiv (cdiv (imageXEnd - originX) (2 ^ level)) tileW +
          px / tileW) % cdiv (cdiv (imageXEnd - originX) (2 ^ level)) tileW = px / tileW := by
        rw [Nat.mul_comm (py / tileH), Nat.mul_add_mod]
        exact Nat.mod_eq_of_lt hgx
      have hdiv : (py / tileH * cdiv (cdiv (imageXEnd - originX) (2 ^ level)) tileW +
          px / tileW) / cdiv (cdiv (imageXEnd - originX) (2 ^ level)) tileW = py / tileH := by
        rw [Nat.mul_comm (py / tileH), Nat.mul_add_div htX0, Nat.div_eq_of_lt hgx]
        rfl
      rw [hmod, hdiv]
      exact patchFor_covers imageXEnd imageYEnd tileW tileH originX originY level
        (2 ^ level) px py hs hW hH hOX hOY hpx hpy

/-- Witness for C1 at a concrete level: a 5 × 3 pixel level-0 extent with
2 × 2 tiles, giving a 3 × 2 grid of 6 patches. -/
theorem claim_C1_witness :
    (create_patch_list 5 3 3 2 2 2 0 0 0).1.length = 3 * 2 ∧
    (create_patch_list 5 3 3 2 2 2 0 0 0).2.length = 3 * 2 ∧
    (create_patch_list 5 3 3 2 2 2 0 0 0).2.Nodup ∧
    (∀ i j : Fin (create_patch_list 5 3 3 2 2 2 0 0 0).1.length, i ≠ j → ∀ cx cy : Nat,
      ¬(inPatchRect ((create_patch_list 5 3 3 2 2 2 0 0 0).1.get i) cx cy ∧
        inPatchRect ((create_patch_list 5 3 3 2 2 2 0 0 0).1.get j) cx cy)) ∧
    (∀ px py : Nat, px < 5 → py < 3 →
      ∃ i : Fin (create_patch_list 5 3 3 2 2 2 0 0 0).1.length,
        inPatchIdx ((create_patch_list 5 3 3 2 2 2 0 0 0).1.get i) (2 ^ 0) 0 0 px py) :=
  claim_C1 5 3 2 2 0 0 0 5 3 3 2 (by decide) (by decide) (by decide) (by decide)
    (by decide) (by decide) (by decide) (by decide)

/-- C2: grid cell `(x, y)` of a level yields exactly the patch
`[xStart, xEnd, yStart, yEnd, level]` with
`xStart = originX + x * tileW * scale`,
`xEnd = min (xStart + tileW * scale - scale) imageXEnd` (symmetrically in
`y`), and the patches and identifiers are listed in row-major order
(`y` outer, `x` inner): position `y * tilesX + x` holds this patch, paired
with identifier `(x, y)`. -/
theorem claim_C2
    (imageXEnd imageYEnd tileW tileH originX originY level tilesX tilesY x y : Nat)
    (hx : x < tilesX) (hy : y < tilesY) :
    (create_patch_list imageXEnd imageYEnd tilesX tilesY tileW tileH originX originY
        level).1[y * tilesX + x]? =
      some { xStart := originX + x * tileW * 2 ^ level
             xEnd := min (originX + x * tileW * 2 ^ level + tileW * 2 ^ level - 2 ^ level)
               imageXEnd
             yStart := originY + y * tileH * 2 ^ level
             yEnd := min (originY + y * tileH * 2 ^ level + tileH * 2 ^ level - 2 ^ level)
               imageYEnd
             level := level } ∧
    (create_patch_list imageXEnd imageYEnd tilesX tilesY tileW tileH originX originY
        level).2[y * tilesX + x]? = some (x, y) := by
  constructor
  · simp only [create_patch_list]
    rw [gridTable_getElem? tilesX _ tilesY y x hy hx]
    simp [patchFor, Nat.mul_assoc]
  · simp only [create_patch_list]
    exact gridTable_getElem? tilesX _ tilesY y x hy hx

/-- Witness for C2: cell `(1, 1)` of the 3 × 2 grid of the 5 × 3 level. -/
theorem claim_C2_witness :
    (create_patch_list 5 3 3 2 2 2 0 0 0).1[1 * 3 + 1]? =
      some { xStart := 0 + 1 * 2 * 2 ^ 0
             xEnd := min (0 + 1 * 2 * 2 ^ 0 + 2 * 2 ^ 0 - 2 ^ 0) 5
             yStart := 0 + 1 * 2 * 2 ^ 0
             yEnd := min (0 + 1 * 2 * 2 ^ 0 + 2 * 2 ^ 0 - 2 ^ 0) 3
             level := 0 } ∧
    (create_patch_list 5 3 3 2 2 2 0 0 0).2[1 * 3 + 1]? = some (1, 1) :=
  claim_C2 5 3 2 2 0 0 0 3 2 1 1 (by decide) (by decide)

/-! ### `make_planar`: RGB deinterleaving (source lines 244-250) -/

/-- The numpy strided slice `l[0::3]`: every third element, starting at the
head.  `pixels[c::3]` is modelled as `take3rd (pixels.drop c)`. -/
def take3rd : List α → List α
  | [] => []
  | [a] => [a]
  | [a, _] => [a]
  | a :: _ :: _ :: rest => a :: take3rd rest

/-- numpy `v.shape = (tile_height, tile_width)` (source line 249):
reinterpret a flat plane of `w * h` samples as `h` rows of `w`. -/
def toRows (w h : Nat) (l : List α) : List (List α) :=
  (List.range h).map (fun y => (l.drop (y * w)).take w)

/-- `WriteTiles.make_planar` (source lines 244-250): split an interleaved
`R0 G0 B0 R1 G1 B1 ...` buffer into the three strided planes, reshape each
to `(tile_height, tile_width)`, and stack them into `np.array([r, g, b])`. -/
def make_planar (pixels : List Nat) (tile_width tile_height : Nat) :
    List (List (List Nat)) :=
  [toRows tile_width tile_height (take3rd pixels),
   toRows tile_width tile_height (take3rd (pixels.drop 1)),
   toRows tile_width tile_height (take3rd (pixels.drop 2))]

/-- Re-interleave three planar buffers back into `R G B R G B ...`. -/
def interleave3 : List α → List α → List α → List α
  | a :: as, b :: bs, c :: cs => a :: b :: c :: interleave3 as bs cs
  | _, _, _ => []

theorem take3rd_cons (x : α) (rest : List α) :
    take3rd (x :: rest) = x :: take3rd (rest.drop 2) := by
  match rest with
  | [] => rfl
  | [_] => rfl
  | _ :: _ :: _ => rfl

theorem take3rd_getElem? (l : List α) : ∀ i : Nat, (take3rd l)[i]? = l[3 * i]? := by
  induction l using take3rd.induct with
  | case1 => intro i; simp [take3rd]
  | case2 a =>
    intro i
    match i with
    | 0 => simp [take3rd]
    | k + 1 =>
      have h1 : (take3rd [a])[k + 1]? = none :=
        List.getElem?_eq_none (by simp [take3rd])
      have h2 : ([a] : List α)[3 * (k + 1)]? = none :=
        List.getElem?_eq_none (by simp; omega)
      rw [h1, h2]
  | case3 a b =>
    intro i
    match i with
    | 0 => simp [take3rd]
    | k + 1 =>
      have h1 : (take3rd [a, b])[k + 1]? = none :=
        List.getElem?_eq_none (by simp [take3rd])
      have h2 : ([a, b] : List α)[3 * (k + 1)]? = none :=
        List.getElem?_eq_none (by simp; omega)
      rw [h1, h2]
  | case4 a b c rest ih =>
    intro i
    match i with
    | 0 => simp [take3rd]
    | k + 1 =>
      have h2 : ((a :: b :: c :: rest) : List α)[3 * (k + 1)]? = rest[3 * k]? := by
        rw [show (3 : Nat) * (k + 1) = 3 * k + 1 + 1 + 1 by ring]
        simp [List.getElem?_cons_succ]
      have h1 : take3rd (a :: b :: c :: rest) = a :: take3rd rest := by
        simp [take3rd]
      rw [h2, h1, List.getElem?_cons_succ]
      exact ih k

theorem take3rd_length (l : List α) : (take3rd l).length = (l.length + 2) / 3 := by
  induction l using take3rd.induct with
  | case1 => simp [take3rd]
  | case2 a => simp [take3rd]
  | case3 a b => simp [take3rd]
  | case4 a b c rest ih =>
    simp only [take3rd, List.length_cons, ih]
    omega

theorem toRows_length (w h : Nat) (l : List α) : (toRows w h l).length = h := by
  simp [toRows]

theorem toRows_getElem? (w h : Nat) (l : List α) (y : Nat) (hy : y < h) :
    (toRows w h l)[y]? = some ((l.drop (y * w)).take w) := by
  simp [toRows, List.getElem?_map, List.getElem?_range, hy]

theorem toRows_entry (w h : Nat) (l : List α) (y x : Nat) (hy : y < h) (hx : x < w) :
    ((toRows w h l).getD y [])[x]? = l[y * w + x]? := by
  rw [List.getD_eq_getElem?_getD, toRows_getElem? w h l y hy]
  simp [List.getElem?_take, hx, List.getElem?_drop]

theorem toRows_cons (w h : Nat) (l : List α) :
    toRows w (h + 1) l = l.take w :: toRows w h (l.drop w) := by
  simp only [toRows, List.range_succ_eq_map, List.map_cons, List.map_map]
  congr 1
  · simp
  · apply List.map_congr_left
    intro y _
    simp only [Function.comp_apply, Nat.succ_eq_add_one, List.drop_drop]
    congr 2
    ring

theorem toRows_flatten (w h : Nat) (l : List α) (hl : l.length = h * w) :
    (toRows w h l).flatten = l := by
  induction h generalizing l with
  | zero =>
    have : l = [] := List.eq_nil_of_length_eq_zero (by omega)
    simp [toRows, this]
  | succ k ih =>
    rw [toRows_cons, List.flatten_cons, ih (l.drop w) (by simp [hl]; ring_nf; omega)]
    exact List.take_append_drop w l

theorem interleave3_take3rd (n : Nat) :
    ∀ l : List α, l.length = 3 * n →
      interleave3 (take3rd l) (take3rd (l.drop 1)) (take3rd (l.drop 2)) = l := by
  induction n with
  | zero =>
    intro l hl
    have : l = [] := List.eq_nil_of_length_eq_zero (by omega)
    simp [this, take3rd, interleave3]
  | succ k ih =>
    intro l hl
    match l with
    | a :: b :: c :: rest =>
      have hr : rest.length = 3 * k := by simp at hl; omega
      have h1 : take3rd (a :: b :: c :: rest) = a :: take3rd rest := rfl
      have h2 : take3rd (b :: c :: rest) = b :: take3rd (rest.drop 1) := by
        rw [take3rd_cons]
        rfl
      have h3 : take3rd (c :: rest) = c :: take3rd (rest.drop 2) := take3rd_cons c rest
      simp only [List.drop_succ_cons, List.drop_zero, List.drop_one]
      rw [h1, h2, h3]
      simp only [interleave3]
      rw [ih rest hr]

/-- C6: for an interleaved RGB buffer of length `3 * width * height`,
`make_planar` returns a `(3, height, width)` array with
`output[c][y][x] = input[3 * (y * width + x) + c]`, and re-interleaving
the three returned planes reproduces the input buffer exactly. -/
theorem claim_C6 (pixels : List Nat) (w h : Nat) (hlen : pixels.length = 3 * (w * h)) :
    (make_planar pixels w h).length = 3 ∧
    (∀ c : Nat, c < 3 → ((make_planar pixels w h).getD c []).length = h) ∧
    (∀ c y x : Nat, c < 3 → y < h → x < w →
      (((make_planar pixels w h).getD c []).getD y [])[x]? =
        pixels[3 * (y * w + x) + c]?) ∧
    interleave3 ((make_planar pixels w h).getD 0 []).flatten
        ((make_planar pixels w h).getD 1 []).flatten
        ((make_planar pixels w h).getD 2 []).flatten = pixels := by
  have e1 : (take3rd pixels).length = h * w := by
    rw [take3rd_length, hlen, Nat.mul_comm h w]
    omega
  have e2 : (take3rd (pixels.drop 1)).length = h * w := by
    rw [take3rd_length, List.length_drop, hlen, Nat.mul_comm h w]
    omega
  have e3 : (take3rd (pixels.drop 2)).length = h * w := by
    rw [take3rd_length, List.length_drop, hlen, Nat.mul_comm h w]
    omega
  refine ⟨rfl, ?_, ?_, ?_⟩
  · intro c hc
    interval_cases c <;> simp [make_planar, toRows_length]
  · intro c y x hc hy hx
    interval_cases c
    · show ((toRows w h (take3rd pixels)).getD y [])[x]? = _
      rw [toRows_entry w h _ y x hy hx, take3rd_getElem?, Nat.add_zero]
    · show ((toRows w h (take3rd (pixels.drop 1))).getD y [])[x]? = _
      rw [toRows_entry w h _ y x hy hx, take3rd_getElem?, List.getElem?_drop,
        Nat.add_comm 1 (3 * (y * w + x))]
    · show ((toRows w h (take3rd (pixels.drop 2))).getD y [])[x]? = _
      rw [toRows_entry w h _ y x hy hx, take3rd_getElem?, List.getElem?_drop,
        Nat.add_comm 2 (3 * (y * w + x))]
  · show interleave3 (toRows w h (take3rd pixels)).flatten
        (toRows w h (take3rd (pixels.drop 1))).flatten
        (toRows w h (take3rd (pixels.drop 2))).flatten = pixels
    rw [toRows_flatten w h _ e1, toRows_flatten w h _ e2, toRows_flatten w h _ e3]
    exact interleave3_take3rd (w * h) pixels hlen

/-- Witness for C6: a 2 × 2 RGB buffer of 12 interleaved samples. -/
theorem claim_C6_witness :
    (make_planar [1, 2, 3, 4, 5, 6, 7, 8, 9, 10, 11, 12] 2 2).length = 3 ∧
    (∀ c : Nat, c < 3 →
      ((make_planar [1, 2, 3, 4, 5, 6, 7, 8, 9, 10, 11, 12] 2 2).getD c []).length = 2) ∧
    (∀ c y x : Nat, c < 3 → y < 2 → x < 2 →
      (((make_planar [1, 2, 3, 4, 5, 6, 7, 8, 9, 10, 11, 12] 2 2).getD c []).getD y [])[x]? =
        ([1, 2, 3, 4, 5, 6, 7, 8, 9, 10, 11, 12] : List Nat)[3 * (y * 2 + x) + c]?) ∧
    interleave3
        ((make_planar [1, 2, 3, 4, 5, 6, 7, 8, 9, 10, 11, 12] 2 2).getD 0 []).flatten
        ((make_planar [1, 2, 3, 4, 5, 6, 7, 8, 9, 10, 11, 12] 2 2).getD 1 []).flatten
        ((make_planar [1, 2, 3, 4, 5, 6, 7, 8, 9, 10, 11, 12] 2 2).getD 2 []).flatten =
      [1, 2, 3, 4, 5, 6, 7, 8, 9, 10, 11, 12] :=
  claim_C6 [1, 2, 3, 4, 5, 6, 7, 8, 9, 10, 11, 12] 2 2 (by decide)

/-! ### `write_tile`: per-tile error isolation (source lines 266-299) -/

/-- The diagnostic printed on a failed tile write (source lines 295-299):
`"Failed to write tile [:, %d:%d, %d:%d] to %s" % (x_start, x_end, y_start,
y_end, filename)`. -/
def failMessage (x_start x_end y_start y_end : Nat) (filename : String) : String :=
  "Failed to write tile [:, " ++ toString x_start ++ ":" ++ toString x_end ++
    ", " ++ toString y_start ++ ":" ++ toString y_end ++ "] to " ++ filename

/-- Result of one `write_tile` call: either the tile was written, or the
exception was caught and the traceback plus the diagnostic were logged. -/
inductive TileOutcome
  | written
  | loggedFailure (trace : String) (diagnostic : String)
deriving Repr, DecidableEq

/-- One tile-write job of the dispatch loop (source lines 356-360).
`serialization` abstracts the format-specific body of the `try` block
(source lines 273-291): `Except.error tb` models the body raising with
traceback `tb`. -/
structure TileJob where
  serialization : Except String Unit
  x_start : Nat
  y_start : Nat
  width : Nat
  height : Nat
  filename : String

/-- `write_tile` (source lines 266-299).  `x_end = x_start + tile_width`
and `y_end = y_start + tile_height` (lines 270-271); the whole body is
wrapped in `try/except Exception` (lines 272-299), so the call always
returns: a raised exception is converted into a logged traceback and the
diagnostic naming the failing pixel range and the destination. -/
def write_tile (serialization : Except String Unit)
    (x_start y_start tile_width tile_height : Nat) (filename : String) : TileOutcome :=
  match serialization with
  | .ok _ => .written
  | .error tb =>
      .loggedFailure tb
        (failMessage x_start (x_start + tile_width) y_start (y_start + tile_height)
          filename)

/-- The per-level dispatch loop (source lines 334-360) hands every ready
region to `write_tile` in turn; no outcome of an earlier job can stop a
later one. -/
def processLevel : List TileJob → List TileOutcome
  | [] => []
  | j :: rest =>
      write_tile j.serialization j.x_start j.y_start j.width j.height j.filename ::
        processLevel rest

theorem processLevel_eq_map (jobs : List TileJob) :
    processLevel jobs = jobs.map
      (fun j => write_tile j.serialization j.x_start j.y_start j.width j.height
        j.filename) := by
  induction jobs with
  | nil => rfl
  | cons j rest ih => simp [processLevel, ih]

/-! ### On-disk layout (source lines 215-242) -/

/-- A chunked-array dataset as created by `group.create_dataset`
(source lines 227-230).  The source passes
`chunks=(None, tile_height, tile_width)`; `None` stands for the full
extent of axis 0, which is 3. -/
structure Dataset where
  store : String
  name : String
  shape : Nat × Nat × Nat
  chunks : Nat × Nat × Nat
deriving Repr, DecidableEq

/-- `WriteTiles.create_tile_directory` (source lines 215-233): the tile
directory path, plus the dataset created for this resolution when the
output format is one of the chunked-array formats `n5`/`zarr`. -/
def create_tile_directory (slide_directory file_type : String)
    (tile_width tile_height resolution width height : Nat) :
    String × Option Dataset :=
  if file_type = "n5" ∨ file_type = "zarr" then
    (slide_directory ++ "/pyramid." ++ file_type,
     some { store := slide_directory ++ "/pyramid." ++ file_type
            name := toString resolution
            shape := (3, height, width)
            chunks := (3, tile_height, tile_width) })
  else
    (slide_directory ++ "/" ++ toString resolution, none)

/-- `WriteTiles.get_tile_filename` (source lines 235-242). -/
def get_tile_filename (tile_directory : String) (x_start y_start : Nat)
    (file_type : String) : String :=
  if file_type = "n5" ∨ file_type = "zarr" then tile_directory
  else tile_directory ++ "/" ++ toString x_start ++ "/" ++ toString y_start ++
    "." ++ file_type

/-! ### `write_pyramid` as an action list (source lines 252-361) -/

/-- A `DimensionRange` `(origin, step, end)` of the engine, as returned by
`view.dimensionRanges(resolution)`. -/
structure DimRange where
  origin : Nat
  step : Nat
  stop : Nat
deriving Repr, DecidableEq

/-- The externally observable actions of `write_pyramid`. -/
inductive PyramidAction
  | createDir (tile_directory : String) (dataset : Option Dataset)
  | requestRegions (patches : List Patch)
  | writeTileJob (filename : String) (resolution x_start y_start : Nat)
deriving Repr, DecidableEq

/-- One iteration of the per-level loop of `write_pyramid` (source lines
302-360): compute `resolution_x_end`/`resolution_y_end` (lines 307-308)
and the tile counts (lines 310-311), create the tile directory with
`resolution_x_end + 1` × `resolution_y_end + 1` extents (lines 317-319),
build the patch list (lines 321-326), request the regions (lines 329-330),
and write one tile per patch identifier `(gx, gy)`, at pixel offsets
`(gx * tile_width, gy * tile_height)` (lines 344-355).  The engine
delivers regions in a nondeterministic order; the model lists the tile
writes in grid order, which fixes the set of produced writes. -/
def level_actions (slide_directory file_type : String)
    (tile_width tile_height resolution : Nat) (dx dy : DimRange) :
    List PyramidAction :=
  PyramidAction.createDir
      (create_tile_directory slide_directory file_type tile_width tile_height
        resolution (resolution_end dx.origin dx.step dx.stop + 1)
        (resolution_end dy.origin dy.step dy.stop + 1)).1
      (create_tile_directory slide_directory file_type tile_width tile_height
        resolution (resolution_end dx.origin dx.step dx.stop + 1)
        (resolution_end dy.origin dy.step dy.stop + 1)).2 ::
    PyramidAction.requestRegions
      (create_patch_list dx.stop dy.stop
        (cdiv (resolution_end dx.origin dx.step dx.stop) tile_width)
        (cdiv (resolution_end dy.origin dy.step dy.stop) tile_height)
        tile_width tile_height dx.origin dy.origin resolution).1 ::
    (create_patch_list dx.stop dy.stop
        (cdiv (resolution_end dx.origin dx.step dx.stop) tile_width)
        (cdiv (resolution_end dy.origin dy.step dy.stop) tile_height)
        tile_width tile_height dx.origin dy.origin resolution).2.map
      (fun gxy =>
        PyramidAction.writeTileJob
          (get_tile_filename
            (create_tile_directory slide_directory file_type tile_width tile_height
              resolution (resolution_end dx.origin dx.step dx.stop + 1)
              (resolution_end dy.origin dy.step dy.stop + 1)).1
            (gxy.1 * tile_width) (gxy.2 * tile_height) file_type)
          resolution (gxy.1 * tile_width) (gxy.2 * tile_height))

/-- `WriteTiles.write_pyramid` (source lines 252-361), abstracted to its
observable actions.  The valid-data-envelope check (lines 257-259) runs
before everything else: on a null envelope set the `RuntimeError` aborts
the run before any action; otherwise each level contributes its actions
in order.  Returns the performed actions and the raised error, if any. -/
def write_pyramid (scanned_areas : Option Unit)
    (slide_directory file_type : String) (tile_width tile_height : Nat)
    (levels : List (DimRange × DimRange)) :
    List PyramidAction × Option String :=
  match scanned_areas with
  | none => ([], some "No valid data envelopes")
  | some _ =>
      ((levels.enum.map (fun p =>
          level_actions slide_directory file_type tile_width tile_height
            p.1 p.2.1 p.2.2)).flatten, none)

/-- The filenames of the tile-write actions in an action list. -/
def writeFilenames (acts : List PyramidAction) : List String :=
  acts.filterMap (fun a =>
    match a with
    | .writeTileJob f _ _ _ => some f
    | _ => none)

/-- C5: an exception raised while deinterleaving or writing one tile is
caught inside `write_tile`: the traceback and a diagnostic naming the
failing pixel range and destination are logged, nothing propagates to the
pool or the dispatch loop, and every remaining tile job of the level is
still processed (one outcome per job, each depending only on its own job). -/
theorem claim_C5 (jobs : List TileJob) (i : Nat) (j : TileJob)
    (hj : jobs[i]? = some j) :
    (processLevel jobs).length = jobs.length ∧
    (processLevel jobs)[i]? = some (write_tile j.serialization j.x_start j.y_start
      j.width j.height j.filename) ∧
    (∀ tb : String, j.serialization = Except.error tb →
      (processLevel jobs)[i]? = some (TileOutcome.loggedFailure tb
        (failMessage j.x_start (j.x_start + j.width) j.y_start (j.y_start + j.height)
          j.filename))) := by
  refine ⟨by simp [processLevel_eq_map], ?_, ?_⟩
  · rw [processLevel_eq_map, List.getElem?_map, hj]
    rfl
  · intro tb htb
    rw [processLevel_eq_map, List.getElem?_map, hj]
    simp [write_tile, htb]

/-- Witness for C5: a level with a failing first tile and a succeeding
second tile; the failure is logged with its pixel range and destination
and both jobs produce an outcome. -/
theorem claim_C5_witness :
    (processLevel [⟨Except.error "Traceback", 512, 0, 88, 512, "out/0/512/0.jpeg"⟩,
        ⟨Except.ok (), 0, 0, 512, 512, "out/0/0/0.jpeg"⟩]).length = 2 ∧
    (processLevel [⟨Except.error "Traceback", 512, 0, 88, 512, "out/0/512/0.jpeg"⟩,
        ⟨Except.ok (), 0, 0, 512, 512, "out/0/0/0.jpeg"⟩])[0]? =
      some (write_tile (Except.error "Traceback") 512 0 88 512 "out/0/512/0.jpeg") ∧
    (∀ tb : String,
      (Except.error "Traceback" : Except String Unit) = Except.error tb →
      (processLevel [⟨Except.error "Traceback", 512, 0, 88, 512, "out/0/512/0.jpeg"⟩,
          ⟨Except.ok (), 0, 0, 512, 512, "out/0/0/0.jpeg"⟩])[0]? =
        some (TileOutcome.loggedFailure tb (failMessage 512 600 0 512
          "out/0/512/0.jpeg"))) :=
  claim_C5 [⟨Except.error "Traceback", 512, 0, 88, 512, "out/0/512/0.jpeg"⟩,
    ⟨Except.ok (), 0, 0, 512, 512, "out/0/0/0.jpeg"⟩] 0
    ⟨Except.error "Traceback", 512, 0, 88, 512, "out/0/512/0.jpeg"⟩ rfl

/-- C9: a null valid-data-envelope set makes `write_pyramid` raise
`RuntimeError("No valid data envelopes")` before creating any tile
directory, requesting any region, or writing any tile (the action list is
empty); a non-null envelope set raises no such error. -/
theorem claim_C9 (slide_directory file_type : String) (tile_width tile_height : Nat)
    (levels : List (DimRange × DimRange)) :
    write_pyramid none slide_directory file_type tile_width tile_height levels =
      ([], some "No valid data envelopes") ∧
    (∀ u : Unit, (write_pyramid (some u) slide_directory file_type tile_width
      tile_height levels).2 = none) :=
  ⟨rfl, fun _ => rfl⟩

/-- Counterexample to C7 as stated: for a level of pixel extent 600 × 600
(`DimensionRange (0, 1, 600)` on both axes), the dataset created by
`create_tile_directory` — which `write_pyramid` calls with
`resolution_x_end + 1` and `resolution_y_end + 1` (source lines 317-319) —
has shape `(3, 601, 601)`, not the claimed `(3, 600, 600)`. -/
theorem claim_C7_counterexample :
    (level_actions "out" "zarr" 512 512 0 ⟨0, 1, 600⟩ ⟨0, 1, 600⟩)[0]? =
      some (PyramidAction.createDir "out/pyramid.zarr"
        (some { store := "out/pyramid.zarr", name := "0",
                shape := (3, 601, 601), chunks := (3, 512, 512) })) ∧
    ((3, 601, 601) : Nat × Nat × Nat) ≠ (3, 600, 600) :=
  ⟨rfl, by decide⟩

/-- C7 (amended): for the chunked-array formats `n5`/`zarr`, each level
gets exactly one dataset, named by the level number, under
`<output_dir>/pyramid.<ext>`, with chunk shape `(3, tileHeight, tileWidth)`
and shape `(3, H + 1, W + 1)` for a level of pixel extent `W × H` (one
more than the pixel extent on each spatial axis, because `write_pyramid`
passes `resolution_x_end + 1` and `resolution_y_end + 1`). -/
theorem claim_C7 (slide_directory file_type : String)
    (tile_width tile_height resolution : Nat) (dx dy : DimRange)
    (hft : file_type = "n5" ∨ file_type = "zarr") :
    (level_actions slide_directory file_type tile_width tile_height resolution
        dx dy)[0]? =
      some (PyramidAction.createDir (slide_directory ++ "/pyramid." ++ file_type)
        (some { store := slide_directory ++ "/pyramid." ++ file_type
                name := toString resolution
                shape := (3, resolution_end dy.origin dy.step dy.stop + 1,
                  resolution_end dx.origin dx.step dx.stop + 1)
                chunks := (3, tile_height, tile_width) })) := by
  rcases hft with h | h <;> subst h <;> rfl

/-- Witness for C7 (amended), at the 600 × 600 level of the scenario with
`zarr` output: the dataset is `out/pyramid.zarr/0` with shape
`(3, 601, 601)` and chunks `(3, 512, 512)`. -/
theorem claim_C7_witness :
    (level_actions "out" "zarr" 512 512 0 ⟨0, 1, 600⟩ ⟨0, 1, 600⟩)[0]? =
      some (PyramidAction.createDir "out/pyramid.zarr"
        (some { store := "out/pyramid.zarr", name := "0",
                shape := (3, 601, 601), chunks := (3, 512, 512) })) :=
  claim_C7 "out" "zarr" 512 512 0 ⟨0, 1, 600⟩ ⟨0, 1, 600⟩ (Or.inr rfl)

/-! ### Discrete-format tile paths (claim C8) -/

theorem filterMap_some_comp (f : α → β) (l : List α) :
    l.filterMap (fun a => some (f a)) = l.map f := by
  induction l with
  | nil => rfl
  | cons a l ih => simp [List.filterMap_cons, ih]

theorem create_tile_directory_discrete (slide ft : String) (tw th res w h : Nat)
    (h1 : ft ≠ "n5") (h2 : ft ≠ "zarr") :
    create_tile_directory slide ft tw th res w h =
      (slide ++ "/" ++ toString res, none) := by
  unfold create_tile_directory
  rw [if_neg (not_or.mpr ⟨h1, h2⟩)]

theorem get_tile_filename_discrete (td : String) (xs ys : Nat) (ft : String)
    (h1 : ft ≠ "n5") (h2 : ft ≠ "zarr") :
    get_tile_filename td xs ys ft =
      td ++ "/" ++ toString xs ++ "/" ++ toString ys ++ "." ++ ft := by
  unfold get_tile_filename
  rw [if_neg (not_or.mpr ⟨h1, h2⟩)]

theorem writeFilenames_level (slide ft : String) (tw th res : Nat) (dx dy : DimRange)
    (h1 : ft ≠ "n5") (h2 : ft ≠ "zarr") :
    writeFilenames (level_actions slide ft tw th res dx dy) =
      (create_patch_list dx.stop dy.stop
          (cdiv (resolution_end dx.origin dx.step dx.stop) tw)
          (cdiv (resolution_end dy.origin dy.step dy.stop) th)
          tw th dx.origin dy.origin res).2.map
        (fun g => slide ++ "/" ++ toString res ++ "/" ++ toString (g.1 * tw) ++
          "/" ++ toString (g.2 * th) ++ "." ++ ft) := by
  simp only [writeFilenames, level_actions, List.filterMap_cons, List.filterMap_map]
  rw [show ((fun a => match a with
      | PyramidAction.writeTileJob f _ _ _ => some f
      | _ => none) ∘ (fun gxy : Nat × Nat =>
        PyramidAction.writeTileJob
          (get_tile_filename
            (create_tile_directory slide ft tw th res
              (resolution_end dx.origin dx.step dx.stop + 1)
              (resolution_end dy.origin dy.step dy.stop + 1)).1
            (gxy.1 * tw) (gxy.2 * th) ft)
          res (gxy.1 * tw) (gxy.2 * th))) =
      (fun gxy : Nat × Nat => some (get_tile_filename
        (create_tile_directory slide ft tw th res
          (resolution_end dx.origin dx.step dx.stop + 1)
          (resolution_end dy.origin dy.step dy.stop + 1)).1
        (gxy.1 * tw) (gxy.2 * th) ft)) from rfl]
  rw [filterMap_some_comp]
  apply List.map_congr_left
  intro g _
  rw [get_tile_filename_discrete _ _ _ _ h1 h2,
    create_tile_directory_discrete _ _ _ _ _ _ _ h1 h2]

/-- The two-level scenario of the spec: level 0 of pixel extent 600 × 600
(`DimensionRange (0, 1, 600)`) and level 1 of pixel extent 300 × 300
(`DimensionRange (0, 2, 600)`). -/
def scenarioLevels : List (DimRange × DimRange) :=
  [(⟨0, 1, 600⟩, ⟨0, 1, 600⟩), (⟨0, 2, 600⟩, ⟨0, 2, 600⟩)]

/-- Counterexample to C8 as stated: in the scenario (600 × 600 level 0,
512 × 512 tiles), the tile of grid cell `(gridX, gridY) = (1, 0)` is
written to `out/0/512/0.jpeg` — the directory component is
`gridX * tileWidth = 512` — and no file `out/0/1/0.jpeg` with the literal
`gridX = 1` as directory component is produced. -/
theorem claim_C8_counterexample :
    "out/0/512/0.jpeg" ∈ writeFilenames (write_pyramid (some ()) "out" "jpeg" 512 512
      scenarioLevels).1 ∧
    "out/0/1/0.jpeg" ∉ writeFilenames (write_pyramid (some ()) "out" "jpeg" 512 512
      scenarioLevels).1 := by
  decide

/-- C8 (amended): for discrete-file output formats, every tile is written
to `<output_dir>/<level>/<xStart>/<yStart>.<ext>` where
`xStart = gridX * tileWidth` and `yStart = gridY * tileHeight`; in the
scenario (level 0 of 600 × 600, level 1 of 300 × 300, tile size 512 × 512)
the produced files are exactly `0/0/0.<ext>`, `0/0/512.<ext>` (clipped),
`0/512/0.<ext>`, `0/512/512.<ext>` and `1/0/0.<ext>`. -/
theorem claim_C8 (ext : String) (h1 : ext ≠ "n5") (h2 : ext ≠ "zarr") :
    (∀ (slide : String) (tw th res : Nat) (dx dy : DimRange),
      writeFilenames (level_actions slide ext tw th res dx dy) =
        (create_patch_list dx.stop dy.stop
            (cdiv (resolution_end dx.origin dx.step dx.stop) tw)
            (cdiv (resolution_end dy.origin dy.step dy.stop) th)
            tw th dx.origin dy.origin res).2.map
          (fun g => slide ++ "/" ++ toString res ++ "/" ++ toString (g.1 * tw) ++
            "/" ++ toString (g.2 * th) ++ "." ++ ext)) ∧
    writeFilenames (write_pyramid (some ()) "out" ext 512 512 scenarioLevels).1 =
      ["out/0/0/0." ++ ext, "out/0/512/0." ++ ext, "out/0/0/512." ++ ext,
       "out/0/512/512." ++ ext, "out/1/0/0." ++ ext] ∧
    (∀ f : String,
      f ∈ writeFilenames (write_pyramid (some ()) "out" ext 512 512 scenarioLevels).1 ↔
        (f = "out/0/0/0." ++ ext ∨ f = "out/0/0/512." ++ ext ∨
         f = "out/0/512/0." ++ ext ∨ f = "out/0/512/512." ++ ext ∨
         f = "out/1/0/0." ++ ext)) := by
  have h5 : writeFilenames (write_pyramid (some ()) "out" ext 512 512
      scenarioLevels).1 =
      [get_tile_filename ((create_tile_directory "out" ext 512 512 0 601 601).1)
        (0 * 512) (0 * 512) ext,
       get_tile_filename ((create_tile_directory "out" ext 512 512 0 601 601).1)
        (1 * 512) (0 * 512) ext,
       get_tile_filename ((create_tile_directory "out" ext 512 512 0 601 601).1)
        (0 * 512) (1 * 512) ext,
       get_tile_filename ((create_tile_directory "out" ext 512 512 0 601 601).1)
        (1 * 512) (1 * 512) ext,
       get_tile_filename ((create_tile_directory "out" ext 512 512 1 301 301).1)
        (0 * 512) (0 * 512) ext] := rfl
  have hb : writeFilenames (write_pyramid (some ()) "out" ext 512 512
      scenarioLevels).1 =
      ["out/0/0/0." ++ ext, "out/0/512/0." ++ ext, "out/0/0/512." ++ ext,
       "out/0/512/512." ++ ext, "out/1/0/0." ++ ext] := by
    rw [h5]
    simp [create_tile_directory_discrete, get_tile_filename_discrete, h1, h2,
      show toString (0 : Nat) = "0" from rfl, show toString (1 : Nat) = "1" from rfl,
      show toString (512 : Nat) = "512" from rfl]
  refine ⟨fun slide tw th res dx dy =>
    writeFilenames_level slide ext tw th res dx dy h1 h2, hb, ?_⟩
  intro f
  rw [hb]
  simp only [List.mem_cons, List.not_mem_nil, or_false]
  tauto

/-- Witness for C8 (amended) at `ext = "jpeg"`. -/
theorem claim_C8_witness :
    (∀ (slide : String) (tw th res : Nat) (dx dy : DimRange),
      writeFilenames (level_actions slide "jpeg" tw th res dx dy) =
        (create_patch_list dx.stop dy.stop
            (cdiv (resolution_end dx.origin dx.step dx.stop) tw)
            (cdiv (resolution_end dy.origin dy.step dy.stop) th)
            tw th dx.origin dy.origin res).2.map
          (fun g => slide ++ "/" ++ toString res ++ "/" ++ toString (g.1 * tw) ++
            "/" ++ toString (g.2 * th) ++ "." ++ "jpeg")) ∧
    writeFilenames (write_pyramid (some ()) "out" "jpeg" 512 512 scenarioLevels).1 =
      ["out/0/0/0." ++ "jpeg", "out/0/512/0." ++ "jpeg", "out/0/0/512." ++ "jpeg",
       "out/0/512/512." ++ "jpeg", "out/1/0/0." ++ "jpeg"] ∧
    (∀ f : String,
      f ∈ writeFilenames (write_pyramid (some ()) "out" "jpeg" 512 512
          scenarioLevels).1 ↔
        (f = "out/0/0/0." ++ "jpeg" ∨ f = "out/0/0/512." ++ "jpeg" ∨
         f = "out/0/512/0." ++ "jpeg" ∨ f = "out/0/512/512." ++ "jpeg" ∨
         f = "out/1/0/0." ++ "jpeg")) :=
  claim_C8 "jpeg" (by decide) (by decide)

/-! ### `MaxQueuePool` (source lines 27-65) as a transition system -/

/-- State of the `MaxQueuePool` admission gate: `counter` is the current
value of the `BoundedSemaphore(max_queue_size)` (source line 46), and
`inFlight` the number of jobs accepted by `submit` whose done-callback has
not yet run. -/
structure PoolState where
  counter : Nat
  inFlight : Nat
deriving Repr, DecidableEq

/-- Pool events: `submit` (source lines 48-55, which acquires the
semaphore before handing the task to the executor) and the completion
callback `pool_queue_callback` (source lines 57-59), which runs exactly
once per job when its future is done — whether the job succeeded or
raised.  `ok` records which; the callback ignores it. -/
inductive PoolEvent
  | submit
  | complete (ok : Bool)
deriving Repr, DecidableEq

/-- `MaxQueuePool.__init__` at the `write_pyramid` call site (source line
333): `MaxQueuePool(ThreadPoolExecutor, self.max_workers)`, so
`max_queue_size = max_workers` and the semaphore starts at that bound. -/
def poolInit (max_workers : Nat) : PoolState :=
  { counter := max_workers, inFlight := 0 }

/-- One step of the pool.  `submit` first acquires the semaphore: with
`counter = 0` the acquire blocks the caller, modelled as the event being
disabled (`none`).  A completion callback releases exactly one slot,
regardless of the job's outcome. -/
def poolStep (s : PoolState) : PoolEvent → Option PoolState
  | .submit =>
      if s.counter = 0 then none
      else some { counter := s.counter - 1, inFlight := s.inFlight + 1 }
  | .complete _ =>
      if s.inFlight = 0 then none
      else some { counter := s.counter + 1, inFlight := s.inFlight - 1 }

/-- Run a sequence of pool events from a state; `none` when a disabled
event was attempted. -/
def poolRun (s : PoolState) : List PoolEvent → Option PoolState
  | [] => some s
  | e :: evs =>
      match poolStep s e with
      | none => none
      | some t => poolRun t evs

theorem poolStep_sum {s t : PoolState} {e : PoolEvent}
    (h : poolStep s e = some t) :
    t.counter + t.inFlight = s.counter + s.inFlight := by
  cases e with
  | submit =>
    simp only [poolStep] at h
    split_ifs at h with hc
    have ht := Option.some.inj h
    subst ht
    show s.counter - 1 + (s.inFlight + 1) = s.counter + s.inFlight
    omega
  | complete ok =>
    simp only [poolStep] at h
    split_ifs at h with hc
    have ht := Option.some.inj h
    subst ht
    show s.counter + 1 + (s.inFlight - 1) = s.counter + s.inFlight
    omega

theorem poolRun_sum :
    ∀ (evs : List PoolEvent) (s0 s : PoolState), poolRun s0 evs = some s →
      s.counter + s.inFlight = s0.counter + s0.inFlight := by
  intro evs
  induction evs with
  | nil =>
    intro s0 s h
    have := Option.some.inj h
    subst this
    rfl
  | cons e evs ih =>
    intro s0 s h
    unfold poolRun at h
    cases hstep : poolStep s0 e with
    | none => rw [hstep] at h; exact absurd h (by simp)
    | some t =>
      rw [hstep] at h
      exact (ih t s h).trans (poolStep_sum hstep)

/-- C3: in every reachable state of the `MaxQueuePool` admission gate, the
number of jobs accepted by `submit` but not yet finished never exceeds the
configured `max_workers` bound; `submit` is blocked exactly when that
number equals the bound; and each completion callback — for a succeeded or
a raised job alike — releases exactly one slot. -/
theorem claim_C3 (max_workers : Nat) (evs : List PoolEvent) (s : PoolState)
    (h : poolRun (poolInit max_workers) evs = some s) :
    s.inFlight ≤ max_workers ∧
    s.counter + s.inFlight = max_workers ∧
    (poolStep s PoolEvent.submit = none ↔ s.inFlight = max_workers) ∧
    (∀ (ok : Bool) (t : PoolState), poolStep s (PoolEvent.complete ok) = some t →
      t.inFlight + 1 = s.inFlight ∧ t.counter = s.counter + 1) := by
  have hsum : s.counter + s.inFlight = max_workers := by
    have := poolRun_sum evs (poolInit max_workers) s h
    simpa [poolInit] using this
  refine ⟨by omega, hsum, ?_, ?_⟩
  · constructor
    · intro hb
      simp only [poolStep] at hb
      split_ifs at hb with hc
      omega
    · intro hf
      simp only [poolStep]
      rw [if_pos (by omega)]
  · intro ok t ht
    simp only [poolStep] at ht
    split_ifs at ht with hc
    have := Option.some.inj ht
    subst this
    exact ⟨by show s.inFlight - 1 + 1 = s.inFlight; omega,
      by show s.counter + 1 = s.counter + 1; rfl⟩

/-- Witness for C3: bound 2 with the event sequence
submit, submit, complete, submit; the reached state has two in-flight jobs
and a blocked `submit`. -/
theorem claim_C3_witness :
    (2 : Nat) ≤ 2 ∧
    (0 : Nat) + 2 = 2 ∧
    (poolStep { counter := 0, inFlight := 2 } PoolEvent.submit = none ↔ (2 : Nat) = 2) ∧
    (∀ (ok : Bool) (t : PoolState),
      poolStep { counter := 0, inFlight := 2 } (PoolEvent.complete ok) = some t →
      t.inFlight + 1 = 2 ∧ t.counter = 0 + 1) :=
  claim_C3 2 [PoolEvent.submit, PoolEvent.submit, PoolEvent.complete true,
    PoolEvent.submit] { counter := 0, inFlight := 2 } rfl

/-! ### `write_pyramid` as a small-step event machine (claim C4) -/

/-- Events of one run of `write_pyramid`, per level (source lines
302-361): the tile directory creation (line 317), the patch planning
(line 321), the region request (line 329), the submit of a tile-write job
(line 356) and its completion, the pool scope exit —
`MaxQueuePool.__exit__` (source lines 64-65) delegates to
`ThreadPoolExecutor.__exit__`, i.e. `shutdown(wait=True)`, which returns
only once all submitted jobs have finished — and finally
`wait(jobs, return_when=ALL_COMPLETED)` (line 361), which sits inside the
loop body (indent 12, like `jobs = ()` at line 332) and therefore runs
once per level, waiting on the futures collected for that level. -/
inductive PyrEvent
  | createDirEv (level : Nat)
  | planEv (level : Nat)
  | requestEv (level : Nat)
  | submitEv (level : Nat)
  | finishEv (level : Nat)
  | poolExitEv (level : Nat)
  | waitJobsEv (level : Nat)
deriving Repr, DecidableEq

/-- Position inside one iteration of the level loop. -/
inductive PyrPhase
  | beforeDir
  | beforePlan
  | beforeReq
  | dispatch
  | beforeWait
deriving Repr, DecidableEq

/-- Program counter of `write_pyramid`: the current level, the phase
within the level's iteration, and the number of submitted-but-unfinished
tile jobs of the current level. -/
structure PyrState where
  level : Nat
  phase : PyrPhase
  pending : Nat
deriving Repr, DecidableEq

def pyrInit : PyrState := { level := 0, phase := .beforeDir, pending := 0 }

/-- One step of `write_pyramid` over `numLevels` levels.  `poolExitEv` is
enabled only once `pending = 0` — the executor shutdown blocks until all
submitted jobs have completed; the level's `waitJobsEv` (the per-level
`wait(jobs, ALL_COMPLETED)` of line 361) then closes the iteration and
moves to the next level. -/
def pyrStep (numLevels : Nat) (s : PyrState) : PyrEvent → Option PyrState
  | .createDirEv L =>
      if s.level = L ∧ s.phase = .beforeDir ∧ s.level < numLevels then
        some { s with phase := .beforePlan } else none
  | .planEv L =>
      if s.level = L ∧ s.phase = .beforePlan then
        some { s with phase := .beforeReq } else none
  | .requestEv L =>
      if s.level = L ∧ s.phase = .beforeReq then
        some { s with phase := .dispatch } else none
  | .submitEv L =>
      if s.level = L ∧ s.phase = .dispatch then
        some { s with pending := s.pending + 1 } else none
  | .finishEv L =>
      if s.level = L ∧ s.phase = .dispatch ∧ s.pending ≠ 0 then
        some { s with pending := s.pending - 1 } else none
  | .poolExitEv L =>
      if s.level = L ∧ s.phase = .dispatch ∧ s.pending = 0 then
        some { level := s.level, phase := .beforeWait, pending := 0 } else none
  | .waitJobsEv L =>
      if s.level = L ∧ s.phase = .beforeWait then
        some { level := s.level + 1, phase := .beforeDir, pending := 0 } else none

def pyrRun (numLevels : Nat) (s : PyrState) : List PyrEvent → Option PyrState
  | [] => some s
  | e :: evs =>
      match pyrStep numLevels s e with
      | none => none
      | some t => pyrRun numLevels t evs

/-- The level an event belongs to. -/
def eventLevel : PyrEvent → Option Nat
  | .createDirEv L => some L
  | .planEv L => some L
  | .requestEv L => some L
  | .submitEv L => some L
  | .finishEv L => some L
  | .poolExitEv L => some L
  | .waitJobsEv L => some L

/-- Number of level-`L` tile-job submissions in a trace. -/
def countSubmits (L : Nat) : List PyrEvent → Nat
  | [] => 0
  | .submitEv K :: tr => (if K = L then 1 else 0) + countSubmits L tr
  | _ :: tr => countSubmits L tr

/-- Number of level-`L` tile-job completions in a trace. -/
def countFinishes (L : Nat) : List PyrEvent → Nat
  | [] => 0
  | .finishEv K :: tr => (if K = L then 1 else 0) + countFinishes L tr
  | _ :: tr => countFinishes L tr

theorem countSubmits_append (L : Nat) (l1 l2 : List PyrEvent) :
    countSubmits L (l1 ++ l2) = countSubmits L l1 + countSubmits L l2 := by
  induction l1 with
  | nil => simp [countSubmits]
  | cons e tr ih =>
    cases e <;> simp [countSubmits, List.cons_append, ih] <;> omega

theorem countFinishes_append (L : Nat) (l1 l2 : List PyrEvent) :
    countFinishes L (l1 ++ l2) = countFinishes L l1 + countFinishes L l2 := by
  induction l1 with
  | nil => simp [countFinishes]
  | cons e tr ih =>
    cases e <;> simp [countFinishes, List.cons_append, ih] <;> omega

theorem pyrRun_append (numLevels : Nat) (l1 l2 : List PyrEvent) :
    ∀ s : PyrState, pyrRun numLevels s (l1 ++ l2) =
      (pyrRun numLevels s l1).bind (fun t => pyrRun numLevels t l2) := by
  induction l1 with
  | nil => intro s; simp [pyrRun]
  | cons e tr ih =>
    intro s
    simp only [List.cons_append, pyrRun]
    cases pyrStep numLevels s e with
    | none => simp
    | some t => simp [ih t]

/-- Every step happens at the machine's current level, and the level only
moves up (by one, at the per-level wait). -/
theorem pyrStep_level {numLevels : Nat} {s t : PyrState} {e : PyrEvent}
    (h : pyrStep numLevels s e = some t) :
    (∀ K, eventLevel e = some K → K = s.level) ∧ s.level ≤ t.level := by
  cases e <;> simp only [pyrStep] at h <;> split_ifs at h with hc <;>
    have ht := Option.some.inj h <;> subst ht
  · exact ⟨fun K hK => by simp [eventLevel] at hK; omega, Nat.le_refl _⟩
  · exact ⟨fun K hK => by simp [eventLevel] at hK; omega, Nat.le_refl _⟩
  · exact ⟨fun K hK => by simp [eventLevel] at hK; omega, Nat.le_refl _⟩
  · exact ⟨fun K hK => by simp [eventLevel] at hK; omega, Nat.le_refl _⟩
  · exact ⟨fun K hK => by simp [eventLevel] at hK; omega, Nat.le_refl _⟩
  · exact ⟨fun K hK => by simp [eventLevel] at hK; omega, Nat.le_refl _⟩
  · exact ⟨fun K hK => by simp [eventLevel] at hK; omega,
      by show s.level ≤ s.level + 1; omega⟩

theorem pyrRun_counts (numLevels : Nat) (tr : List PyrEvent) :
    ∀ s : PyrState, pyrRun numLevels pyrInit tr = some s →
      (∀ L, L < s.level → countSubmits L tr = countFinishes L tr) ∧
      (countSubmits s.level tr = countFinishes s.level tr + s.pending) ∧
      (∀ L, s.level < L → countSubmits L tr = 0 ∧ countFinishes L tr = 0) ∧
      (∀ K, K < s.level →
        PyrEvent.poolExitEv K ∈ tr ∧ PyrEvent.waitJobsEv K ∈ tr) ∧
      (s.phase = PyrPhase.beforeWait →
        PyrEvent.poolExitEv s.level ∈ tr ∧ s.pending = 0) := by
  induction tr using List.reverseRecOn with
  | nil =>
    intro s h
    have hs := Option.some.inj h
    subst hs
    refine ⟨fun L hL => absurd hL (Nat.not_lt_zero L), rfl,
      fun L _ => ⟨rfl, rfl⟩, fun K hK => absurd hK (Nat.not_lt_zero K), ?_⟩
    intro hct
    simp [pyrInit] at hct
  | append_singleton tr e ih =>
    intro s h
    rw [pyrRun_append] at h
    cases hpre : pyrRun numLevels pyrInit tr with
    | none => rw [hpre] at h; exact absurd h (by simp)
    | some t =>
      rw [hpre] at h
      have h2 : pyrRun numLevels t [e] = some s := h
      have hstep : pyrStep numLevels t e = some s := by
        unfold pyrRun at h2
        cases hst : pyrStep numLevels t e with
        | none => rw [hst] at h2; exact absurd h2 (by simp)
        | some u =>
          rw [hst] at h2
          exact h2
      obtain ⟨ih1, ih2, ih3, ih4, ih5⟩ := ih t hpre
      cases e with
      | createDirEv L0 =>
        simp only [pyrStep] at hstep
        split_ifs at hstep with hc
        obtain ⟨hl, hph, hlt⟩ := hc
        have hs := Option.some.inj hstep
        subst hs
        refine ⟨?_, ?_, ?_, ?_, ?_⟩
        · intro L hL
          rw [countSubmits_append, countFinishes_append]
          have e1 : countSubmits L [PyrEvent.createDirEv L0] = 0 := rfl
          have e2 : countFinishes L [PyrEvent.createDirEv L0] = 0 := rfl
          have hL' : L < t.level := hL
          have := ih1 L hL'
          omega
        · rw [countSubmits_append, countFinishes_append]
          show countSubmits t.level tr + countSubmits t.level [PyrEvent.createDirEv L0] =
            countFinishes t.level tr + countFinishes t.level [PyrEvent.createDirEv L0] +
              t.pending
          have e1 : countSubmits t.level [PyrEvent.createDirEv L0] = 0 := rfl
          have e2 : countFinishes t.level [PyrEvent.createDirEv L0] = 0 := rfl
          omega
        · intro L hL
          rw [countSubmits_append, countFinishes_append]
          have hL' : t.level < L := hL
          obtain ⟨z1, z2⟩ := ih3 L hL'
          have e1 : countSubmits L [PyrEvent.createDirEv L0] = 0 := rfl
          have e2 : countFinishes L [PyrEvent.createDirEv L0] = 0 := rfl
          omega
        · intro K hK
          obtain ⟨m1, m2⟩ := ih4 K hK
          exact ⟨List.mem_append_left _ m1, List.mem_append_left _ m2⟩
        · intro hct
          simp at hct
      | planEv L0 =>
        simp only [pyrStep] at hstep
        split_ifs at hstep with hc
        obtain ⟨hl, hph⟩ := hc
        have hs := Option.some.inj hstep
        subst hs
        refine ⟨?_, ?_, ?_, ?_, ?_⟩
        · intro L hL
          rw [countSubmits_append, countFinishes_append]
          have e1 : countSubmits L [PyrEvent.planEv L0] = 0 := rfl
          have e2 : countFinishes L [PyrEvent.planEv L0] = 0 := rfl
          have hL' : L < t.level := hL
          have := ih1 L hL'
          omega
        · rw [countSubmits_append, countFinishes_append]
          show countSubmits t.level tr + countSubmits t.level [PyrEvent.planEv L0] =
            countFinishes t.level tr + countFinishes t.level [PyrEvent.planEv L0] +
              t.pending
          have e1 : countSubmits t.level [PyrEvent.planEv L0] = 0 := rfl
          have e2 : countFinishes t.level [PyrEvent.planEv L0] = 0 := rfl
          omega
        · intro L hL
          rw [countSubmits_append, countFinishes_append]
          have hL' : t.level < L := hL
          obtain ⟨z1, z2⟩ := ih3 L hL'
          have e1 : countSubmits L [PyrEvent.planEv L0] = 0 := rfl
          have e2 : countFinishes L [PyrEvent.planEv L0] = 0 := rfl
          omega
        · intro K hK
          obtain ⟨m1, m2⟩ := ih4 K hK
          exact ⟨List.mem_append_left _ m1, List.mem_append_left _ m2⟩
        · intro hct
          simp at hct
      | requestEv L0 =>
        simp only [pyrStep] at hstep
        split_ifs at hstep with hc
        obtain ⟨hl, hph⟩ := hc
        have hs := Option.some.inj hstep
        subst hs
        refine ⟨?_, ?_, ?_, ?_, ?_⟩
        · intro L hL
          rw [countSubmits_append, countFinishes_append]
          have e1 : countSubmits L [PyrEvent.requestEv L0] = 0 := rfl
          have e2 : countFinishes L [PyrEvent.requestEv L0] = 0 := rfl
          have hL' : L < t.level := hL
          have := ih1 L hL'
          omega
        · rw [countSubmits_append, countFinishes_append]
          show countSubmits t.level tr + countSubmits t.level [PyrEvent.requestEv L0] =
            countFinishes t.level tr + countFinishes t.level [PyrEvent.requestEv L0] +
              t.pending
          have e1 : countSubmits t.level [PyrEvent.requestEv L0] = 0 := rfl
          have e2 : countFinishes t.level [PyrEvent.requestEv L0] = 0 := rfl
          omega
        · intro L hL
          rw [countSubmits_append, countFinishes_append]
          have hL' : t.level < L := hL
          obtain ⟨z1, z2⟩ := ih3 L hL'
          have e1 : countSubmits L [PyrEvent.requestEv L0] = 0 := rfl
          have e2 : countFinishes L [PyrEvent.requestEv L0] = 0 := rfl
          omega
        · intro K hK
          obtain ⟨m1, m2⟩ := ih4 K hK
          exact ⟨List.mem_append_left _ m1, List.mem_append_left _ m2⟩
        · intro hct
          simp at hct
      | submitEv L0 =>
        simp only [pyrStep] at hstep
        split_ifs at hstep with hc
        obtain ⟨hl, hph⟩ := hc
        have hs := Option.some.inj hstep
        subst hs
        have es : ∀ L : Nat, countSubmits L [PyrEvent.submitEv L0] =
            if L0 = L then 1 else 0 := by
          intro L; simp [countSubmits]
        refine ⟨?_, ?_, ?_, ?_, ?_⟩
        · intro L hL
          rw [countSubmits_append, countFinishes_append]
          have hL' : L < t.level := hL
          have e1 := es L
          rw [if_neg (by omega)] at e1
          have e2 : countFinishes L [PyrEvent.submitEv L0] = 0 := rfl
          have := ih1 L hL'
          omega
        · rw [countSubmits_append, countFinishes_append]
          show countSubmits t.level tr + countSubmits t.level [PyrEvent.submitEv L0] =
            countFinishes t.level tr + countFinishes t.level [PyrEvent.submitEv L0] +
              (t.pending + 1)
          have e1 := es t.level
          rw [if_pos hl.symm] at e1
          have e2 : countFinishes t.level [PyrEvent.submitEv L0] = 0 := rfl
          omega
        · intro L hL
          rw [countSubmits_append, countFinishes_append]
          have hL' : t.level < L := hL
          obtain ⟨z1, z2⟩ := ih3 L hL'
          have e1 := es L
          rw [if_neg (by omega)] at e1
          have e2 : countFinishes L [PyrEvent.submitEv L0] = 0 := rfl
          omega
        · intro K hK
          obtain ⟨m1, m2⟩ := ih4 K hK
          exact ⟨List.mem_append_left _ m1, List.mem_append_left _ m2⟩
        · intro hct
          simp [hph] at hct
      | finishEv L0 =>
        simp only [pyrStep] at hstep
        split_ifs at hstep with hc
        obtain ⟨hl, hph, hnz⟩ := hc
        have hs := Option.some.inj hstep
        subst hs
        have ef : ∀ L : Nat, countFinishes L [PyrEvent.finishEv L0] =
            if L0 = L then 1 else 0 := by
          intro L; simp [countFinishes]
        refine ⟨?_, ?_, ?_, ?_, ?_⟩
        · intro L hL
          rw [countSubmits_append, countFinishes_append]
          have hL' : L < t.level := hL
          have e2 := ef L
          rw [if_neg (by omega)] at e2
          have e1 : countSubmits L [PyrEvent.finishEv L0] = 0 := rfl
          have := ih1 L hL'
          omega
        · rw [countSubmits_append, countFinishes_append]
          show countSubmits t.level tr + countSubmits t.level [PyrEvent.finishEv L0] =
            countFinishes t.level tr + countFinishes t.level [PyrEvent.finishEv L0] +
              (t.pending - 1)
          have e2 := ef t.level
          rw [if_pos hl.symm] at e2
          have e1 : countSubmits t.level [PyrEvent.finishEv L0] = 0 := rfl
          omega
        · intro L hL
          rw [countSubmits_append, countFinishes_append]
          have hL' : t.level < L := hL
          obtain ⟨z1, z2⟩ := ih3 L hL'
          have e2 := ef L
          rw [if_neg (by omega)] at e2
          have e1 : countSubmits L [PyrEvent.finishEv L0] = 0 := rfl
          omega
        · intro K hK
          obtain ⟨m1, m2⟩ := ih4 K hK
          exact ⟨List.mem_append_left _ m1, List.mem_append_left _ m2⟩
        · intro hct
          simp [hph] at hct
      | poolExitEv L0 =>
        simp only [pyrStep] at hstep
        split_ifs at hstep with hc
        obtain ⟨hl, hph, hz⟩ := hc
        have hs := Option.some.inj hstep
        subst hs
        refine ⟨?_, ?_, ?_, ?_, ?_⟩
        · intro L hL
          rw [countSubmits_append, countFinishes_append]
          have e1 : countSubmits L [PyrEvent.poolExitEv L0] = 0 := rfl
          have e2 : countFinishes L [PyrEvent.poolExitEv L0] = 0 := rfl
          have hL' : L < t.level := hL
          have := ih1 L hL'
          omega
        · rw [countSubmits_append, countFinishes_append]
          show countSubmits t.level tr + countSubmits t.level [PyrEvent.poolExitEv L0] =
            countFinishes t.level tr +
              countFinishes t.level [PyrEvent.poolExitEv L0] + 0
          have e1 : countSubmits t.level [PyrEvent.poolExitEv L0] = 0 := rfl
          have e2 : countFinishes t.level [PyrEvent.poolExitEv L0] = 0 := rfl
          omega
        · intro L hL
          rw [countSubmits_append, countFinishes_append]
          have hL' : t.level < L := hL
          obtain ⟨z1, z2⟩ := ih3 L hL'
          have e1 : countSubmits L [PyrEvent.poolExitEv L0] = 0 := rfl
          have e2 : countFinishes L [PyrEvent.poolExitEv L0] = 0 := rfl
          omega
        · intro K hK
          obtain ⟨m1, m2⟩ := ih4 K hK
          exact ⟨List.mem_append_left _ m1, List.mem_append_left _ m2⟩
        · intro _
          refine ⟨?_, rfl⟩
          show PyrEvent.poolExitEv t.level ∈ tr ++ [PyrEvent.poolExitEv L0]
          rw [hl]
          exact List.mem_append_right _ (by simp)
      | waitJobsEv L0 =>
        simp only [pyrStep] at hstep
        split_ifs at hstep with hc
        obtain ⟨hl, hph⟩ := hc
        have hs := Option.some.inj hstep
        subst hs
        obtain ⟨hpe, hpz⟩ := ih5 hph
        refine ⟨?_, ?_, ?_, ?_, ?_⟩
        · intro L hL
          rw [countSubmits_append, countFinishes_append]
          have e1 : countSubmits L [PyrEvent.waitJobsEv L0] = 0 := rfl
          have e2 : countFinishes L [PyrEvent.waitJobsEv L0] = 0 := rfl
          have hL' : L < t.level + 1 := hL
          by_cases hcase : L < t.level
          · have := ih1 L hcase
            omega
          · have hLt : L = t.level := by omega
            subst hLt
            omega
        · rw [countSubmits_append, countFinishes_append]
          show countSubmits (t.level + 1) tr +
              countSubmits (t.level + 1) [PyrEvent.waitJobsEv L0] =
            countFinishes (t.level + 1) tr +
              countFinishes (t.level + 1) [PyrEvent.waitJobsEv L0] + 0
          obtain ⟨z1, z2⟩ := ih3 (t.level + 1) (by omega)
          have e1 : countSubmits (t.level + 1) [PyrEvent.waitJobsEv L0] = 0 := rfl
          have e2 : countFinishes (t.level + 1) [PyrEvent.waitJobsEv L0] = 0 := rfl
          omega
        · intro L hL
          rw [countSubmits_append, countFinishes_append]
          have hL' : t.level + 1 < L := hL
          obtain ⟨z1, z2⟩ := ih3 L (by omega)
          have e1 : countSubmits L [PyrEvent.waitJobsEv L0] = 0 := rfl
          have e2 : countFinishes L [PyrEvent.waitJobsEv L0] = 0 := rfl
          omega
        · intro K hK
          have hK' : K < t.level + 1 := hK
          by_cases hcase : K < t.level
          · obtain ⟨m1, m2⟩ := ih4 K hcase
            exact ⟨List.mem_append_left _ m1, List.mem_append_left _ m2⟩
          · have hKt : K = t.level := by omega
            subst hKt
            refine ⟨List.mem_append_left _ hpe, ?_⟩
            show PyrEvent.waitJobsEv t.level ∈ tr ++ [PyrEvent.waitJobsEv L0]
            rw [hl]
            exact List.mem_append_right _ (by simp)
        · intro hct
          simp at hct

theorem pyrRun_suffix_levels (numLevels : Nat) :
    ∀ (evs : List PyrEvent) (t s : PyrState), pyrRun numLevels t evs = some s →
      ∀ e' ∈ evs, ∀ K, eventLevel e' = some K → t.level ≤ K := by
  intro evs
  induction evs with
  | nil => intro t s h e' he'; exact absurd he' (List.not_mem_nil e')
  | cons e evs ih =>
    intro t s h e' he' K hK
    unfold pyrRun at h
    cases hst : pyrStep numLevels t e with
    | none => rw [hst] at h; exact absurd h (by simp)
    | some u =>
      rw [hst] at h
      rcases List.mem_cons.mp he' with rfl | hmem
      · exact le_of_eq ((pyrStep_level hst).1 K hK).symm
      · exact le_trans (pyrStep_level hst).2 (ih u s h e' hmem K hK)

/-- C4: `write_pyramid` processes resolution levels strictly in order with
a barrier between levels: in any run, when an event of a later level `L'`
occurs, then for every level `L < L'` every tile-write job submitted for
`L` has finished (submit and finish counts over the prefix agree), the
level-`L` pool has been drained (`poolExitEv L`, the executor shutdown on
scope exit, lies in the prefix) and the wait on level `L`'s futures has
returned (`waitJobsEv L`, the per-level `wait(jobs, ALL_COMPLETED)` of
source line 361, lies in the prefix) — all before any patch planning,
directory/dataset creation, region request, or tile write of a later
level; and every event from the split point on belongs to a level above
`L`. -/
theorem claim_C4 (numLevels : Nat) (tr : List PyrEvent) (s : PyrState)
    (h : pyrRun numLevels pyrInit tr = some s)
    (pre post : List PyrEvent) (e : PyrEvent)
    (hsplit : tr = pre ++ e :: post)
    (L L' : Nat) (he : eventLevel e = some L') (hLL : L < L') :
    countSubmits L pre = countFinishes L pre ∧
    PyrEvent.poolExitEv L ∈ pre ∧
    PyrEvent.waitJobsEv L ∈ pre ∧
    (∀ e' ∈ e :: post, ∀ K, eventLevel e' = some K → L < K) := by
  subst hsplit
  rw [pyrRun_append] at h
  cases hpre : pyrRun numLevels pyrInit pre with
  | none => rw [hpre] at h; exact absurd h (by simp)
  | some t =>
    rw [hpre] at h
    have hsuffix : pyrRun numLevels t (e :: post) = some s := h
    have hstep : ∃ u, pyrStep numLevels t e = some u := by
      unfold pyrRun at hsuffix
      cases hst : pyrStep numLevels t e with
      | none => rw [hst] at hsuffix; exact absurd hsuffix (by simp)
      | some u => exact ⟨u, rfl⟩
    obtain ⟨u, hst⟩ := hstep
    have hlev : L' = t.level := (pyrStep_level hst).1 L' he
    obtain ⟨ih1, ih2, ih3, ih4, ih5⟩ := pyrRun_counts numLevels pre t hpre
    obtain ⟨hpool, hwait⟩ := ih4 L (by omega)
    refine ⟨ih1 L (by omega), hpool, hwait, ?_⟩
    intro e' he' K hK
    have := pyrRun_suffix_levels numLevels (e :: post) t s hsuffix e' he' K hK
    omega

/-- A complete two-level run of the event machine: each level plans,
requests, submits and finishes one tile job, exits its pool, and waits on
its own futures before the next level starts. -/
def c4trace : List PyrEvent :=
  [PyrEvent.createDirEv 0, PyrEvent.planEv 0, PyrEvent.requestEv 0,
   PyrEvent.submitEv 0, PyrEvent.finishEv 0, PyrEvent.poolExitEv 0,
   PyrEvent.waitJobsEv 0,
   PyrEvent.createDirEv 1, PyrEvent.planEv 1, PyrEvent.requestEv 1,
   PyrEvent.submitEv 1, PyrEvent.finishEv 1, PyrEvent.poolExitEv 1,
   PyrEvent.waitJobsEv 1]

/-- Witness for C4, on the concrete two-level run `c4trace`, split at its
first level-1 event: level 0's job counts balance and both its pool exit
and its futures wait precede every level-1 event. -/
theorem claim_C4_witness :
    countSubmits 0 [PyrEvent.createDirEv 0, PyrEvent.planEv 0, PyrEvent.requestEv 0,
        PyrEvent.submitEv 0, PyrEvent.finishEv 0, PyrEvent.poolExitEv 0,
        PyrEvent.waitJobsEv 0] =
      countFinishes 0 [PyrEvent.createDirEv 0, PyrEvent.planEv 0, PyrEvent.requestEv 0,
        PyrEvent.submitEv 0, PyrEvent.finishEv 0, PyrEvent.poolExitEv 0,
        PyrEvent.waitJobsEv 0] ∧
    PyrEvent.poolExitEv 0 ∈ [PyrEvent.createDirEv 0, PyrEvent.planEv 0,
        PyrEvent.requestEv 0, PyrEvent.submitEv 0, PyrEvent.finishEv 0,
        PyrEvent.poolExitEv 0, PyrEvent.waitJobsEv 0] ∧
    PyrEvent.waitJobsEv 0 ∈ [PyrEvent.createDirEv 0, PyrEvent.planEv 0,
        PyrEvent.requestEv 0, PyrEvent.submitEv 0, PyrEvent.finishEv 0,
        PyrEvent.poolExitEv 0, PyrEvent.waitJobsEv 0] ∧
    (∀ e' ∈ PyrEvent.createDirEv 1 ::
        [PyrEvent.planEv 1, PyrEvent.requestEv 1, PyrEvent.submitEv 1,
         PyrEvent.finishEv 1, PyrEvent.poolExitEv 1, PyrEvent.waitJobsEv 1],
      ∀ K, eventLevel e' = some K → 0 < K) :=
  claim_C4 2 c4trace { level := 2, phase := .beforeDir, pending := 0 } (by decide)
    [PyrEvent.createDirEv 0, PyrEvent.planEv 0, PyrEvent.requestEv 0,
     PyrEvent.submitEv 0, PyrEvent.finishEv 0, PyrEvent.poolExitEv 0,
     PyrEvent.waitJobsEv 0]
    [PyrEvent.planEv 1, PyrEvent.requestEv 1, PyrEvent.submitEv 1,
     PyrEvent.finishEv 1, PyrEvent.poolExitEv 1, PyrEvent.waitJobsEv 1]
    (PyrEvent.createDirEv 1) rfl 0 1 rfl (by decide)

/-! ### `WriteTiles.__init__` (source lines 70-90) -/

/-- Externally observable actions of the constructor. -/
inductive InitAction
  | mkdirAct (path : String)
  | openEngine (input_path : String)
deriving Repr, DecidableEq

/-- `WriteTiles.__init__` (source lines 70-90): after storing the
configuration fields, `os.mkdir(self.slide_directory)` runs (line 82)
before the render context/backend are built and
`self.pixel_engine["in"].open(input_path, "ficom")` runs (line 90).
`os.mkdir` raises `OSError` when the directory already exists or its
parent is missing; the constructor then aborts and the engine is never
opened.  Returns the attempted actions in order and the raised error, if
any. -/
def writeTiles_init (output_exists parent_exists : Bool)
    (input_path output_path : String) : List InitAction × Option String :=
  if output_exists || !parent_exists then
    ([InitAction.mkdirAct output_path], some "OSError")
  else
    ([InitAction.mkdirAct output_path, InitAction.openEngine input_path], none)

/-- C10: the constructor always attempts `os.mkdir` on the output
directory first; when the output path already exists or its parent is
missing, an `OSError` is raised and the engine is never opened; on
success (which requires the output directory not to pre-exist, so it is
newly created) no error is raised, the actions are exactly mkdir followed
by one engine open, and the engine is opened exactly once. -/
theorem claim_C10 (output_exists parent_exists : Bool)
    (input_path output_path : String) :
    ((writeTiles_init output_exists parent_exists input_path output_path).1.head? =
      some (InitAction.mkdirAct output_path)) ∧
    ((output_exists = true ∨ parent_exists = false) →
      (writeTiles_init output_exists parent_exists input_path output_path).2 =
        some "OSError" ∧
      InitAction.openEngine input_path ∉
        (writeTiles_init output_exists parent_exists input_path output_path).1) ∧
    ((output_exists = false ∧ parent_exists = true) →
      (writeTiles_init output_exists parent_exists input_path output_path).2 = none ∧
      (writeTiles_init output_exists parent_exists input_path output_path).1 =
        [InitAction.mkdirAct output_path, InitAction.openEngine input_path] ∧
      (writeTiles_init output_exists parent_exists input_path
          output_path).1.count (InitAction.openEngine input_path) = 1) := by
  cases output_exists <;> cases parent_exists <;>
    simp [writeTiles_init, List.count_cons]

/-- Witness for C10: a successful construction (fresh output directory,
existing parent). -/
theorem claim_C10_witness :
    ((writeTiles_init false true "in.isyntax" "out").1.head? =
      some (InitAction.mkdirAct "out")) ∧
    ((false = true ∨ true = false) →
      (writeTiles_init false true "in.isyntax" "out").2 = some "OSError" ∧
      InitAction.openEngine "in.isyntax" ∉
        (writeTiles_init false true "in.isyntax" "out").1) ∧
    ((false = false ∧ true = true) →
      (writeTiles_init false true "in.isyntax" "out").2 = none ∧
      (writeTiles_init false true "in.isyntax" "out").1 =
        [InitAction.mkdirAct "out", InitAction.openEngine "in.isyntax"] ∧
      (writeTiles_init false true "in.isyntax" "out").1.count
        (InitAction.openEngine "in.isyntax") = 1) :=
  claim_C10 false true "in.isyntax" "out"
